/-
Verification of the DJ-AI repository against its natural-language
specification.

The Python sources are shallowly embedded into Lean:
  * pure functions become Lean functions over `ℚ` / `Nat` / `List`;
  * results of external tools (ffprobe, ffmpeg, the random number
    generator) become explicit parameters, since the code itself only
    branches on their values;
  * fallible operations return `Option`.

Each embedded definition is annotated with the source file and the
function it is translated from.
-/

import Mathlib

namespace DJAI

/-! ## Audio cutter (src/analyzer/cutter.py) -/

/-- Embeds `center_cut` (src/analyzer/cutter.py, lines 41-77), restricted
to the computation of the ffmpeg trim arguments.  The probed duration
(the result of `get_duration`, which returns `None` when the file is
absent, ffprobe fails or its output is unparsable) is passed in as an
`Option ℚ`.  The result is `none` when `center_cut` returns `False`
before invoking ffmpeg, and `some (start, cut_len)` when ffmpeg is
invoked with `-ss start -t cut_len`. -/
def center_cut (duration : Option ℚ) (length : ℚ) : Option (ℚ × ℚ) :=
  match duration with
  | none => none
  | some d =>
      if d ≤ length then
        some (0, d)
      else
        some (max 0 ((d - length) / 2), length)

/-- Embeds the boolean result of `center_cut` (src/analyzer/cutter.py,
lines 55-77).  `trimExit` and `outWritten` stand for the exit status of
the ffmpeg invocation and for whether the output file was written; the
source never inspects either, it returns `True` unconditionally once the
duration probe succeeded. -/
def center_cut_result (duration : Option ℚ) (_length : ℚ)
    (_trimExit : Int) (_outWritten : Bool) : Bool :=
  match duration with
  | none => false
  | some _ => true

/-! ## Pipeline orchestrator (src/analyzer/pipeline.py, src/analyzer/config.py) -/

/-- Embeds `DOWNLOAD_THREADS` (src/analyzer/config.py, line 29). -/
def DOWNLOAD_THREADS : Nat := 1

/-- Embeds the download-thread start loop of `run_pipeline`
(src/analyzer/pipeline.py, lines 301-306): one worker thread is started
per iteration of `range(config.DOWNLOAD_THREADS)`. -/
def download_workers_started : Nat := DOWNLOAD_THREADS

/-- Embeds `analyze_worker` (src/analyzer/pipeline.py, lines 185-208),
restricted to its control flow.  `fileExists` is the result of
`os.path.exists(path)`; `analysis` is the outcome of `analyze_audio`
(`none` when it raises).  The result is the returned value paired with
whether a failure was recorded via `save_failed_video`. -/
def analyze_worker {α : Type} (fileExists : Bool) (analysis : Option α) :
    Option α × Bool :=
  if fileExists then
    match analysis with
    | some a => (some a, false)
    | none => (none, true)
  else
    (none, true)

/-! ## Failure cache retry window (src/analyzer/main.py) -/

/-- Seconds in a day, used to embed `timedelta(days=retry_after_days)`. -/
def secondsPerDay : Int := 86400

/-- Embeds `get_failed_ids` (src/analyzer/main.py, lines 38-65).  The
failure cache is a JSON object mapping video id to a record whose
`timestamp` field is parsed with `datetime.fromisoformat`; an entry is
embedded as the id paired with the parse result (`none` when parsing
raises).  Times are integers (seconds); `now` is the current time and
the cutoff is `now - 7 days`.  An id is collected exactly when the code
adds it to `failed_ids`: parse failure, or `fail_date > cutoff`. -/
def get_failed_ids (cache : List (String × Option Int)) (now : Int) :
    List String :=
  (cache.filter (fun e =>
    match e.2 with
    | none => true
    | some t => decide (now - 7 * secondsPerDay < t))).map (·.1)

/-! ## User account store (src/api/database/user_database/user_database.py) -/

/-- Embeds `string.ascii_letters + string.digits`, the `_chars` alphabet
set up in `UserDatabase.__init__` (user_database.py, line 36): 26
lowercase letters, 26 uppercase letters and 10 digits. -/
def user_id_chars : List Char :=
  "abcdefghijklmnopqrstuvwxyz".toList ++
    "ABCDEFGHIJKLMNOPQRSTUVWXYZ".toList ++ "0123456789".toList

/-- Embeds `UserDatabase._sanitize_username` (user_database.py, lines
127-136): strip every character outside `[A-Za-z0-9_]`, then
lower-case. -/
def sanitize_username (username : String) : String :=
  String.mk
    (((username.toList.filter fun c => c.isAlphanum || c == '_')).map
      Char.toLower)

/-- Embeds `str.ljust(width, fill)`: pad on the right up to `width`. -/
def ljust (l : List Char) (width : Nat) (fill : Char) : List Char :=
  l ++ List.replicate (width - l.length) fill

/-- Embeds `UserDatabase._generate_user_id` (user_database.py, lines
113-125).  The eight `secrets.choice(self._chars)` draws are passed in
as the list `rand`; a faithful draw has length 8 with every character in
`user_id_chars`. -/
def generate_user_id (username : String) (rand : List Char) : String :=
  String.mk (ljust (username.toList.take 8) 8 'X' ++ rand)

/-- The id computed by `UserDatabase.create_account` (user_database.py,
lines 148-149): the username is sanitized before the id is generated. -/
def create_account_user_id (username : String) (rand : List Char) : String :=
  generate_user_id (sanitize_username username) rand

/-! ## Audio feature extractor key selection (src/analyzer/analyzer.py) -/

/-- Embeds `NOTES` (src/analyzer/analyzer.py, lines 21-22): the twelve
pitch-class names in chromatic order, 0 = C up to 11 = B. -/
def NOTES : List String :=
  "C" :: "C#" :: "D" :: "D#" :: "E" :: "F" ::
    "F#" :: "G" :: "G#" :: "A" :: "A#" :: "B" :: []

/-- Embeds `CAM_MAJOR` (src/analyzer/analyzer.py, lines 24-28). -/
def CAM_MAJOR : List (String × String) :=
  [("C", "8B"), ("G", "9B"), ("D", "10B"), ("A", "11B"), ("E", "12B"),
   ("B", "1B"), ("F#", "2B"), ("C#", "3B"), ("G#", "4B"),
   ("D#", "5B"), ("A#", "6B"), ("F", "7B")]

/-- Embeds `CAM_MINOR` (src/analyzer/analyzer.py, lines 30-34). -/
def CAM_MINOR : List (String × String) :=
  [("A", "8A"), ("E", "9A"), ("B", "10A"), ("F#", "11A"), ("C#", "12A"),
   ("G#", "1A"), ("D#", "2A"), ("A#", "3A"),
   ("F", "4A"), ("C", "5A"), ("G", "6A"), ("D", "7A")]

/-- The maximum of a correlation list (0 for the empty list, which the
source never produces). -/
def listMaxD : List ℚ → ℚ
  | [] => 0
  | x :: xs => xs.foldl max x

/-- Embeds `np.argmax`: the first index at which a list attains its
maximum (0 for the empty list). -/
def argmax : List ℚ → Nat
  | [] => 0
  | x :: xs =>
      match xs with
      | [] => 0
      | _ => if x < listMaxD xs then argmax xs + 1 else 0

/-- Embeds the key-selection step of `analyze_audio`
(src/analyzer/analyzer.py, lines 58-75).  The two 12-entry Pearson
correlation lists (`major_corr`, `minor_corr`), which the source
computes with `np.corrcoef` between the mean chroma vector and the 12
rotations of each Krumhansl profile, are taken as inputs — they are a
deterministic function of the chroma vector.  `maj_i`/`min_i` are the
`np.argmax` indices; the mode is decided by `>=` (ties to major) and the
Camelot code is the winning note's entry in the fixed tables. -/
def analyze_key (major_corr minor_corr : List ℚ) : String × Option String :=
  let majI := argmax major_corr
  let minI := argmax minor_corr
  if major_corr.getD majI 0 ≥ minor_corr.getD minI 0 then
    ((NOTES.getD majI "") ++ " major", CAM_MAJOR.lookup (NOTES.getD majI ""))
  else
    ((NOTES.getD minI "") ++ " minor", CAM_MINOR.lookup (NOTES.getD minI ""))

/-! ## Track metadata resolver (src/api/utils/track_metadata.py) -/

/-- One entry of the lookup built by `_load_dataset`
(src/api/utils/track_metadata.py, lines 16-60): title, artist and the
raw full title parsed from `dataset.json`. -/
structure TitleEntry where
  title : String
  artist : String
  full_title : String
deriving DecidableEq

/-- One entry of the lookup built by `_load_tracks_csv`
(src/api/utils/track_metadata.py, lines 62-89): the technical fields
from `tracks.csv`, each `None` when the CSV cell is empty. -/
structure TechEntry where
  bpm : Option ℚ
  key : Option String
  camelot : Option String
  energy : Option ℚ
deriving DecidableEq

/-- The record returned by `get_track_metadata`
(src/api/utils/track_metadata.py, lines 91-127): all six fields present,
individually `None` when unresolved. -/
structure TrackMeta where
  title : Option String
  artist : Option String
  bpm : Option ℚ
  key : Option String
  camelot : Option String
  energy : Option ℚ
deriving DecidableEq

/-- Embeds `get_track_metadata` (src/api/utils/track_metadata.py, lines
91-127).  The two dataset files are passed as the lookup dictionaries the
source builds from them.  The function starts from an all-`None` record
and fills in whatever either source has for the id; it returns a record
in every case — there is no `None` return. -/
def get_track_metadata (dataset : List (String × TitleEntry))
    (tracks : List (String × TechEntry)) (youtube_id : String) : TrackMeta :=
  let base : TrackMeta :=
    { title := none, artist := none, bpm := none
      key := none, camelot := none, energy := none }
  let m1 :=
    match dataset.lookup youtube_id with
    | some e => { base with title := some e.title, artist := some e.artist }
    | none => base
  match tracks.lookup youtube_id with
  | some e => { m1 with bpm := e.bpm, key := e.key
                        camelot := e.camelot, energy := e.energy }
  | none => m1

/-! ## Playlist store (src/api/database/playlist_database/playlist_database.py) -/

/-- Embeds `PLAYLIST_SORT_GAP` (src/api/config/config.py, line 51). -/
def PLAYLIST_SORT_GAP : ℚ := 1000

/-- Embeds `PLAYLIST_MIN_GAP` (src/api/config/config.py, line 52). -/
def PLAYLIST_MIN_GAP : ℚ := 1 / 1000000

/-- A row of the `playlist_track` table, restricted to the fields the
insertion operations read and write. -/
structure PlaylistRow where
  youtube_track_id : String
  title : Option String
  artist : Option String
  bpm : Option ℚ
  key : Option String
  camelot : Option String
  energy : Option ℚ
  sort_key : ℚ
deriving DecidableEq

/-- The row inserted by the `INSERT INTO playlist_track` statements of
the three insertion operations: the metadata snapshot plus the computed
sort key. -/
def mkRow (ytid : String) (m : TrackMeta) (sortKey : ℚ) : PlaylistRow :=
  { youtube_track_id := ytid, title := m.title, artist := m.artist
    bpm := m.bpm, key := m.key, camelot := m.camelot, energy := m.energy
    sort_key := sortKey }

/-- The `SELECT sort_key ... ORDER BY sort_key ASC LIMIT 1` query:
the minimum sort key of the playlist, or `none` when it is empty. -/
def min_sort_key : List ℚ → Option ℚ
  | [] => none
  | k :: ks => some (ks.foldl min k)

/-- The `SELECT sort_key ... ORDER BY sort_key DESC LIMIT 1` query:
the maximum sort key of the playlist, or `none` when it is empty. -/
def max_sort_key : List ℚ → Option ℚ
  | [] => none
  | k :: ks => some (ks.foldl max k)

/-- Helper for `rebalance`: assigns `row_number() * gap` along a list of
rows already ordered by their current sort key, starting at row number
`i + 1`. -/
def renumber (gap : ℚ) : Nat → List PlaylistRow → List PlaylistRow
  | _, [] => []
  | i, r :: rs =>
      { r with sort_key := ((i : ℚ) + 1) * gap } :: renumber gap (i + 1) rs

/-- Embeds `PlaylistDatabase._rebalance`
(src/api/database/playlist_database/playlist_database.py, lines
114-148): every row of the playlist gets sort key `row_number() *
PLAYLIST_SORT_GAP`, with row numbers assigned in order of the current
sort keys. -/
def rebalance (rows : List PlaylistRow) : List PlaylistRow :=
  renumber PLAYLIST_SORT_GAP 0
    (rows.mergeSort (fun a b => a.sort_key ≤ b.sort_key))

/-- Embeds `PlaylistDatabase.add_track_to_start` (playlist_database.py,
lines 452-516).  The playlist state is the list of its rows; the result
is the new state paired with the returned boolean.  The metadata is
resolved first via `get_track_metadata`; the new sort key is the halved
current minimum (the gap when the playlist is empty, not halved), with a
rebalance-and-recompute step when the halved value falls below
`PLAYLIST_MIN_GAP`. -/
def add_track_to_start (dataset : List (String × TitleEntry))
    (tracks : List (String × TechEntry)) (rows : List PlaylistRow)
    (ytid : String) : List PlaylistRow × Bool :=
  let metadata := get_track_metadata dataset tracks ytid
  match min_sort_key (rows.map (·.sort_key)) with
  | none => (rows ++ [mkRow ytid metadata PLAYLIST_SORT_GAP], true)
  | some firstSort =>
      let newSort := firstSort / 2
      if newSort < PLAYLIST_MIN_GAP then
        let rows' := rebalance rows
        let firstSort' :=
          (min_sort_key (rows'.map (·.sort_key))).getD PLAYLIST_SORT_GAP
        (rows' ++ [mkRow ytid metadata (firstSort' / 2)], true)
      else
        (rows ++ [mkRow ytid metadata newSort], true)

/-- Embeds `PlaylistDatabase.add_track_to_end` (playlist_database.py,
lines 375-450).  The new sort key is the current maximum plus the gap
(the gap alone when the playlist is empty), with a
rebalance-and-recompute step when the sum would exceed `1e10`; after a
rebalance the refetched maximum falls back to `0` for an empty playlist.
The insert always succeeds and the function returns `True`; resolving no
metadata does not make it return `False`. -/
def add_track_to_end (dataset : List (String × TitleEntry))
    (tracks : List (String × TechEntry)) (rows : List PlaylistRow)
    (ytid : String) : List PlaylistRow × Bool :=
  let metadata := get_track_metadata dataset tracks ytid
  match max_sort_key (rows.map (·.sort_key)) with
  | none => (rows ++ [mkRow ytid metadata PLAYLIST_SORT_GAP], true)
  | some lastSort =>
      if lastSort + PLAYLIST_SORT_GAP > 10 ^ 10 then
        let rows' := rebalance rows
        let lastSort' := (max_sort_key (rows'.map (·.sort_key))).getD 0
        (rows' ++ [mkRow ytid metadata (lastSort' + PLAYLIST_SORT_GAP)], true)
      else
        (rows ++ [mkRow ytid metadata (lastSort + PLAYLIST_SORT_GAP)], true)

/-! ## Transition exporter (src/ml_model/data_preparation/export_transitions.py) -/

/-- A mix's tracklist, reduced to what the exporter reads: the
(nullable) id of each track entry. -/
abbrev Tracklist := List (Option String)

/-- The consecutive pairs `(tracklist[i], tracklist[i+1])` for
`i in range(len(tracklist) - 1)`. -/
def consecutive_pairs : Tracklist → List (Option String × Option String)
  | [] => []
  | [_] => []
  | x :: y :: rest => (x, y) :: consecutive_pairs (y :: rest)

/-- `transition_counts[key] += 1` on a `defaultdict(int)`: Python dicts
are insertion-ordered, so the counter is an association list where a new
key is appended at the end. -/
def bump (counts : List ((String × String) × Nat)) (k : String × String) :
    List ((String × String) × Nat) :=
  match counts with
  | [] => [(k, 1)]
  | (k', c) :: rest =>
      if k' = k then (k', c + 1) :: rest else (k', c) :: bump rest k

/-- Processing of one consecutive pair by `extract_transitions`: the
counter is bumped only when both ids are non-null. -/
def record_pair (counts : List ((String × String) × Nat))
    (p : Option String × Option String) : List ((String × String) × Nat) :=
  match p with
  | (some a, some b) => bump counts (a, b)
  | _ => counts

/-- Embeds `extract_transitions`
(src/ml_model/data_preparation/export_transitions.py, lines 33-64). -/
def extract_transitions (dataset : List Tracklist) :
    List ((String × String) × Nat) :=
  dataset.foldl
    (fun counts mix => (consecutive_pairs mix).foldl record_pair counts) []

/-- The `sorted(transition_counts.items(), key=lambda x: x[1],
reverse=True)` step of `export_to_csv`: a stable sort by descending
frequency. -/
def sorted_transitions (counts : List ((String × String) × Nat)) :
    List ((String × String) × Nat) :=
  counts.mergeSort (fun a b => b.2 ≤ a.2)

/-- Embeds `export_to_csv`
(src/ml_model/data_preparation/export_transitions.py, lines 67-90) as
the list of CSV rows it writes: the header row followed by one row per
transition, sorted by descending frequency. -/
def export_to_csv (counts : List ((String × String) × Nat)) :
    List (List String) :=
  ["from_track_id", "to_track_id", "frequency"] ::
    (sorted_transitions counts).map (fun e => [e.1.1, e.1.2, toString e.2])

/-- The frequency recorded for a key, 0 when the key is absent. -/
def count_of (counts : List ((String × String) × Nat))
    (k : String × String) : Nat :=
  match counts.lookup k with
  | some c => c
  | none => 0

/-- Spec-side definition of the frequency of an ordered pair, following
the spec's words: the number of times the pair occurs as an ordered
consecutive pair with both ids non-null, across all mixes. -/
def spec_pair_count (dataset : List Tracklist) (a b : String) : Nat :=
  (dataset.map (fun mix =>
    (consecutive_pairs mix).countP
      (fun p => decide (p = (some a, some b))))).sum

/-! ## Training-set builder (src/ml_model/training/training_data.py) -/

/-- Embeds `NEGATIVES_PER_POS` (src/ml_model/config.py, line 33). -/
def NEGATIVES_PER_POS : Nat := 3

/-- Embeds `MAX_FREQUENCY_WEIGHT` (src/ml_model/config.py, line 34). -/
def MAX_FREQUENCY_WEIGHT : Nat := 3

/-- Embeds `tracks.index.difference([from_id, to_id])`: the track ids
other than the source and the real destination.  (`Index.difference` is
a set difference — it additionally sorts and deduplicates, which no
property below depends on, since only membership and emptiness
matter.) -/
def neg_candidates (tracks : List String) (fromId toId : String) :
    List String :=
  tracks.filter (fun x => x != fromId && x != toId)

/-- Embeds `random.choice(candidates)`: the random draw is passed in as
the index `k`, reduced modulo the number of candidates; `none` embeds
the `IndexError` that `random.choice` raises on an empty sequence. -/
def choice (candidates : List String) (k : Nat) : Option String :=
  candidates.get? (k % candidates.length)

/-- The negative-example loop of `build_training_set`
(src/ml_model/training/training_data.py, lines 61-66): `n` draws from
the candidate set, each labelled 0 and paired with the same source
track.  `pick` enumerates the RNG's successive draws starting at index
`base`. -/
def neg_examples (tracks : List String) (fromId toId : String)
    (pick : Nat → Nat) :
    Nat → Nat → Option (List ((String × String) × Nat))
  | 0, _ => some []
  | n + 1, base =>
      match choice (neg_candidates tracks fromId toId) (pick base) with
      | none => none
      | some neg =>
          match neg_examples tracks fromId toId pick n (base + 1) with
          | none => none
          | some rest => some (((fromId, neg), 0) :: rest)

/-- Embeds the transition loop of `build_training_set`
(src/ml_model/training/training_data.py, lines 45-66).  Each example is
a track-id pair (the argument pair passed to `build_pair_features`)
with its binary label.  Records whose ids are not both in the tracks
table are skipped; otherwise `min(freq, MAX_FREQUENCY_WEIGHT)` positive
copies and `negPerPos` negatives are emitted.  `base` indexes the RNG
draws consumed so far. -/
def build_training_set_aux (tracks : List String) (negPerPos : Nat)
    (pick : Nat → Nat) :
    List (String × String × Nat) → Nat →
      Option (List ((String × String) × Nat))
  | [], _ => some []
  | (f, t, freq) :: rest, base =>
      if f ∈ tracks ∧ t ∈ tracks then
        match neg_examples tracks f t pick negPerPos base with
        | none => none
        | some negs =>
            match build_training_set_aux tracks negPerPos pick rest
                (base + negPerPos) with
            | none => none
            | some restEx =>
                some (((List.range (min freq MAX_FREQUENCY_WEIGHT)).map
                  (fun _ => ((f, t), 1))) ++ negs ++ restEx)
      else build_training_set_aux tracks negPerPos pick rest base

/-- Embeds `build_training_set`
(src/ml_model/training/training_data.py, lines 20-68), producing the
parallel `(X, y)` data as one list of labelled pairs. -/
def build_training_set (tracks : List String)
    (transitions : List (String × String × Nat)) (negPerPos : Nat)
    (pick : Nat → Nat) : Option (List ((String × String) × Nat)) :=
  build_training_set_aux tracks negPerPos pick transitions 0

/-- A transition record usable by the builder: both ids are in the
tracks table. -/
def valid_transition (tracks : List String) (r : String × String × Nat) :
    Bool :=
  decide (r.1 ∈ tracks) && decide (r.2.1 ∈ tracks)

/-- A constant RNG stream, used to evaluate the builder on concrete
inputs. -/
def pick0 : Nat → Nat := fun _ => 0

/-- The training set the builder produces for tracks `a, b, c`, the
single transition `(a, b)` with frequency 5 and 3 negatives per
positive: three positive copies of `(a, b)` and three negatives pairing
`a` with the only remaining candidate `c`. -/
def bts_example : List ((String × String) × Nat) :=
  [(("a", "b"), 1), (("a", "b"), 1), (("a", "b"), 1),
   (("a", "c"), 0), (("a", "c"), 0), (("a", "c"), 0)]

end DJAI

namespace DJAI

/-! ## Theorems for the audio cutter claims -/

/-- C4: for probed duration `D` and requested length `L`, `center_cut`
computes start `0` and cut length `D` when `D ≤ L`, and start
`max 0 ((D - L) / 2)` with cut length `L` when `D > L`; when the
duration cannot be probed it returns `False` without invoking ffmpeg. -/
theorem center_cut_spec (D L : ℚ) :
    (D ≤ L → center_cut (some D) L = some (0, D)) ∧
    (D > L → center_cut (some D) L = some (max 0 ((D - L) / 2), L)) ∧
    center_cut none L = none := by
  refine ⟨fun h => ?_, fun h => ?_, rfl⟩
  · simp [center_cut, h]
  · simp [center_cut, not_le.mpr h]

/-- Witness for `center_cut_spec`, at the spec's own examples:
`D = 40, L = 60` gives start 0 and length 40, and `D = 180, L = 60`
gives start 60 and length 60. -/
theorem center_cut_spec_witness :
    center_cut (some 40) 60 = some (0, 40) ∧
    center_cut (some 180) 60 = some (60, 60) := by
  have h1 := (center_cut_spec 40 60).1 (by norm_num)
  have h2 := (center_cut_spec 180 60).2.1 (by norm_num)
  refine ⟨h1, ?_⟩
  rw [h2]
  norm_num

/-- C10: whenever the duration probe succeeds, `center_cut` returns
`True` regardless of the ffmpeg exit status and of whether the output
file was written; when the probe fails it returns `False`; and the
analysis step reports a failure when it finds the excerpt file
missing. -/
theorem center_cut_unconditional_success :
    (∀ (d length : ℚ) (exit : Int) (written : Bool),
      center_cut_result (some d) length exit written = true) ∧
    (∀ (length : ℚ) (exit : Int) (written : Bool),
      center_cut_result none length exit written = false) ∧
    (∀ (analysis : Option Nat),
      analyze_worker false analysis = (none, true)) := by
  exact ⟨fun _ _ _ _ => rfl, fun _ _ _ => rfl, fun _ => rfl⟩

/-! ## Theorems for the playlist insertion claims -/

theorem foldl_min_const (l : List ℚ) (b : ℚ) (h : ∀ x ∈ l, b ≤ x) :
    l.foldl min b = b := by
  induction l generalizing b with
  | nil => rfl
  | cons x xs ih =>
      simp only [List.foldl_cons]
      rw [min_eq_left (h x (List.mem_cons_self x xs))]
      exact ih b fun y hy => h y (List.mem_cons_of_mem x hy)

theorem renumber_mem_key (gap : ℚ) :
    ∀ (rs : List PlaylistRow) (i : Nat) (r : PlaylistRow),
      r ∈ renumber gap i rs → ∃ k, i ≤ k ∧ r.sort_key = ((k : ℚ) + 1) * gap := by
  intro rs
  induction rs with
  | nil => intro i r hr; exact absurd hr (List.not_mem_nil r)
  | cons x xs ih =>
      intro i r hr
      rcases List.mem_cons.mp hr with hre | hrr
      · exact ⟨i, le_refl i, by rw [hre]⟩
      · obtain ⟨k, hik, hk⟩ := ih (i + 1) r hrr
        exact ⟨k, Nat.le_of_succ_le hik, hk⟩

/-- After a rebalance of a nonempty playlist, the minimum sort key is
exactly the gap. -/
theorem rebalance_min (rows : List PlaylistRow) (hne : rows ≠ []) :
    min_sort_key ((rebalance rows).map (·.sort_key)) =
      some PLAYLIST_SORT_GAP := by
  unfold rebalance
  have hlen : (rows.mergeSort (fun a b => a.sort_key ≤ b.sort_key)).length =
      rows.length := List.length_mergeSort rows
  cases hms : rows.mergeSort (fun a b => a.sort_key ≤ b.sort_key) with
  | nil =>
      rw [hms] at hlen
      exact absurd (List.length_eq_zero.mp hlen.symm) hne
  | cons r rs =>
      simp only [renumber, List.map_cons, min_sort_key]
      have hbase : ((0 : Nat) : ℚ) + 1 = 1 := by norm_num
      rw [hbase, one_mul]
      congr 1
      apply foldl_min_const
      intro x hx
      obtain ⟨r', hr', hxr⟩ := List.mem_map.mp hx
      obtain ⟨k, hk1, hkey⟩ := renumber_mem_key PLAYLIST_SORT_GAP rs 1 r' hr'
      rw [← hxr, hkey]
      have hk0 : (0 : ℚ) ≤ (k : ℚ) := Nat.cast_nonneg k
      unfold PLAYLIST_SORT_GAP
      nlinarith

/-- C2 counterexample: inserting at the start of an empty playlist
yields sort key 1000 (the gap, not halved), not the 500 the claim
states. -/
theorem add_track_to_start_empty_is_1000 :
    ((add_track_to_start [] [] [] "x").1.map (·.sort_key)) = [(1000 : ℚ)] ∧
    ¬ ((add_track_to_start [] [] [] "x").1.map (·.sort_key)) = [(500 : ℚ)] := by
  constructor
  · rfl
  · intro h
    have : (1000 : ℚ) = 500 := by
      have h' : [(1000 : ℚ)] = [(500 : ℚ)] := by
        rw [← h]; rfl
      exact List.head_eq_of_cons_eq h'
    norm_num at this

/-- C2 (amended): for a nonempty playlist with minimum sort key `m`, the
insert-at-start sort key is `m / 2`, unless `m / 2` falls below the
configured minimum gap, in which case the playlist is rebalanced, the
minimum (now the gap, 1000) is recomputed and halved again, giving 500;
for an empty playlist the new sort key is the gap 1000 itself, not
halved. -/
theorem add_track_to_start_sort_key (ds : List (String × TitleEntry))
    (ts : List (String × TechEntry)) (rows : List PlaylistRow)
    (ytid : String) :
    (rows = [] →
      ((add_track_to_start ds ts rows ytid).1.getLast?.map (·.sort_key)) =
        some PLAYLIST_SORT_GAP) ∧
    (∀ m : ℚ, min_sort_key (rows.map (·.sort_key)) = some m →
      (¬ m / 2 < PLAYLIST_MIN_GAP →
        ((add_track_to_start ds ts rows ytid).1.getLast?.map (·.sort_key)) =
          some (m / 2)) ∧
      (m / 2 < PLAYLIST_MIN_GAP →
        ((add_track_to_start ds ts rows ytid).1.getLast?.map (·.sort_key)) =
          some 500)) := by
  constructor
  · intro hrows
    subst hrows
    rfl
  · intro m hm
    have hne : rows ≠ [] := by
      intro hr
      subst hr
      exact Option.noConfusion hm
    constructor
    · intro hge
      simp only [add_track_to_start, hm, if_neg hge, List.getLast?_concat,
        Option.map_some', mkRow]
    · intro hlt
      simp only [add_track_to_start, hm, if_pos hlt, List.getLast?_concat,
        Option.map_some', mkRow, rebalance_min rows hne, Option.getD_some]
      norm_num [PLAYLIST_SORT_GAP]

/-- Witness for `add_track_to_start_sort_key`: a playlist whose only row
has sort key 1000 receives a new first row with sort key 500. -/
theorem add_track_to_start_sort_key_witness :
    ((add_track_to_start [] [] [mkRow "a" (get_track_metadata [] [] "a") 1000]
        "b").1.getLast?.map (·.sort_key)) = some (500 : ℚ) := by
  have h := (add_track_to_start_sort_key [] []
    [mkRow "a" (get_track_metadata [] [] "a") 1000] "b").2 1000 rfl
  have h500 : (1000 : ℚ) / 2 = 500 := by norm_num
  rw [← h500]
  exact h.1 (by rw [h500]; norm_num [PLAYLIST_MIN_GAP])

/-- C1: with a track id unknown to both metadata sources, the metadata
cannot be resolved (the resolver returns the all-`None` record), yet the
insertion still succeeds: it stores the all-`None` snapshot and returns
`True`, contradicting the claim (and the function's own docstring) that
it returns `False`. -/
theorem add_track_unknown_metadata_still_true :
    get_track_metadata [] [] "unknownid00" =
      { title := none, artist := none, bpm := none
        key := none, camelot := none, energy := none } ∧
    (add_track_to_end [] [] [] "unknownid00").2 = true ∧
    (add_track_to_end [] [] [] "unknownid00").1 =
      [mkRow "unknownid00" (get_track_metadata [] [] "unknownid00")
        PLAYLIST_SORT_GAP] := by
  exact ⟨rfl, rfl, rfl⟩

/-! ## Theorems for the download-thread pool claim -/

/-- C9 counterexample: the configured download-thread pool size is 1,
not 10 as the claim states. -/
theorem download_threads_not_ten :
    DOWNLOAD_THREADS = 1 ∧ ¬ DOWNLOAD_THREADS = 10 := by
  exact ⟨rfl, by decide⟩

/-- C9 (amended): the analyzer configuration's final download-thread
pool size, and hence the number of concurrent download workers the
pipeline starts, is 1. -/
theorem download_workers_started_eq_one :
    download_workers_started = 1 ∧ download_workers_started = DOWNLOAD_THREADS :=
  ⟨rfl, rfl⟩

/-! ## Theorems for the failure-cache retry window claim -/

/-- In a list with pairwise-distinct first components (a JSON object),
two members with the same key are the same entry. -/
theorem key_unique {α β : Type} {l : List (α × β)}
    (h : l.Pairwise (fun a b => a.1 ≠ b.1)) :
    ∀ {x y : α × β}, x ∈ l → y ∈ l → x.1 = y.1 → x = y := by
  induction l with
  | nil => intro x y hx _ _; exact absurd hx (List.not_mem_nil x)
  | cons e rest ih =>
      intro x y hx hy hkey
      rcases List.pairwise_cons.mp h with ⟨hhead, htail⟩
      rcases List.mem_cons.mp hx with hxe | hxr
      · rcases List.mem_cons.mp hy with hye | hyr
        · rw [hxe, hye]
        · exact absurd (hxe ▸ hkey) (hhead y hyr)
      · rcases List.mem_cons.mp hy with hye | hyr
        · exact absurd (hye ▸ hkey.symm) (hhead x hxr)
        · exact ih htail hxr hyr hkey

/-- C6: an id whose recorded timestamp is less than 7 days before `now`
is excluded from the next run's queue, an id recorded more than 7 days
ago is eligible again, and an id whose timestamp cannot be parsed is
always excluded.  The cache is a JSON object, so its keys are distinct. -/
theorem get_failed_ids_retry_window
    (cache : List (String × Option Int)) (now : Int) (vid : String)
    (hnodup : cache.Pairwise (fun a b => a.1 ≠ b.1)) :
    ((vid, (none : Option Int)) ∈ cache → vid ∈ get_failed_ids cache now) ∧
    (∀ t : Int, (vid, some t) ∈ cache →
      (now - t < 7 * secondsPerDay ↔ vid ∈ get_failed_ids cache now)) := by
  constructor
  · intro hmem
    simp only [get_failed_ids, List.mem_map, List.mem_filter]
    exact ⟨(vid, none), ⟨hmem, rfl⟩, rfl⟩
  · intro t hmem
    constructor
    · intro hlt
      simp only [get_failed_ids, List.mem_map, List.mem_filter]
      refine ⟨(vid, some t), ⟨hmem, ?_⟩, rfl⟩
      simp only [decide_eq_true_eq]
      omega
    · intro hin
      simp only [get_failed_ids, List.mem_map, List.mem_filter] at hin
      obtain ⟨⟨v, t'⟩, ⟨hmem', hkeep⟩, hv⟩ := hin
      have heq : ((v, t') : String × Option Int) = (vid, some t) :=
        key_unique hnodup hmem' hmem (by simpa using hv)
      have ht' : t' = some t := congrArg Prod.snd heq
      subst ht'
      simp only [decide_eq_true_eq] at hkeep
      omega

/-- Witness for `get_failed_ids_retry_window`: in a two-entry cache with
one fresh failure ("a", 1 day old) and one unparsable timestamp ("b"),
both ids are excluded. -/
theorem get_failed_ids_retry_window_witness :
    ("a" ∈ get_failed_ids [("a", some (6 * 86400)), ("b", none)] (7 * 86400)) ∧
    ("b" ∈ get_failed_ids [("a", some (6 * 86400)), ("b", none)] (7 * 86400)) := by
  have h := get_failed_ids_retry_window
    [("a", some (6 * 86400)), ("b", none)] (7 * 86400) "a" (by decide)
  have h2 := get_failed_ids_retry_window
    [("a", some (6 * 86400)), ("b", none)] (7 * 86400) "b" (by decide)
  refine ⟨(h.2 (6 * 86400) (by decide)).mp (by decide), h2.1 (by decide)⟩

/-! ## Theorems for the user-id generation claim -/

/-- C3 counterexample: the random-part alphabet `_chars` has 62
characters (`string.ascii_letters + string.digits`), not 36 as the
claim states. -/
theorem user_id_chars_not_36 :
    user_id_chars.length = 62 ∧ ¬ user_id_chars.length = 36 := by
  exact ⟨by decide, by decide⟩

theorem user_id_chars_alphanum : ∀ c ∈ user_id_chars, c.isAlphanum := by
  decide

/-- C3 (amended): the generated user id is exactly 16 characters, the
first 8 are the first 8 characters of the sanitized username
right-padded with `X` to exactly 8, and the trailing 8 are random
characters drawn from the 62-character alphanumeric alphabet
(equivalently, only from `[A-Za-z0-9]`). -/
theorem generate_user_id_spec (u : String) (rand : List Char)
    (hlen : rand.length = 8) (hmem : ∀ c ∈ rand, c ∈ user_id_chars) :
    (create_account_user_id u rand).toList.length = 16 ∧
    (create_account_user_id u rand).toList.take 8 =
      ljust ((sanitize_username u).toList.take 8) 8 'X' ∧
    ∀ c ∈ (create_account_user_id u rand).toList.drop 8, c.isAlphanum := by
  have h : (create_account_user_id u rand).toList =
      ljust ((sanitize_username u).toList.take 8) 8 'X' ++ rand := rfl
  have hl : (ljust ((sanitize_username u).toList.take 8) 8 'X').length = 8 := by
    simp only [ljust, List.length_append, List.length_replicate,
      List.length_take]
    omega
  refine ⟨?_, ?_, ?_⟩
  · rw [h, List.length_append, hl, hlen]
  · have ht := List.take_left (ljust ((sanitize_username u).toList.take 8) 8 'X') rand
    rw [hl] at ht
    rw [h, ht]
  · intro c hc
    have hd := List.drop_left (ljust ((sanitize_username u).toList.take 8) 8 'X') rand
    rw [hl] at hd
    rw [h, hd] at hc
    exact user_id_chars_alphanum c (hmem c hc)

/-- Witness for `generate_user_id_spec`, at the spec's own example
`username = "ab"`: the first 8 characters of the id are `"abXXXXXX"` and
the id has 16 characters. -/
theorem generate_user_id_spec_witness :
    (create_account_user_id "ab"
      ['A', 'b', '1', 'C', 'd', '2', 'E', 'f']).toList.take 8 =
      "abXXXXXX".toList ∧
    (create_account_user_id "ab"
      ['A', 'b', '1', 'C', 'd', '2', 'E', 'f']).toList.length = 16 := by
  have h := generate_user_id_spec "ab" ['A', 'b', '1', 'C', 'd', '2', 'E', 'f']
    (by decide) (by decide)
  refine ⟨?_, h.1⟩
  rw [h.2.1]
  decide

/-! ## Theorems for the key-detection claim -/

theorem foldl_max_comm (l : List ℚ) :
    ∀ a b : ℚ, l.foldl max (max a b) = max a (l.foldl max b) := by
  induction l with
  | nil => intro a b; rfl
  | cons x xs ih =>
      intro a b
      simp only [List.foldl_cons]
      rw [max_assoc, ih]

theorem listMaxD_cons (x : ℚ) (xs : List ℚ) (h : xs ≠ []) :
    listMaxD (x :: xs) = max x (listMaxD xs) := by
  cases xs with
  | nil => exact absurd rfl h
  | cons y rest =>
      show (y :: rest).foldl max x = max x (rest.foldl max y)
      simp only [List.foldl_cons]
      exact foldl_max_comm rest x y

theorem getD_le_listMaxD (l : List ℚ) :
    ∀ j : Nat, j < l.length → l.getD j 0 ≤ listMaxD l := by
  induction l with
  | nil => intro j hj; exact absurd hj (Nat.not_lt_zero j)
  | cons x xs ih =>
      intro j hj
      cases j with
      | zero =>
          cases xs with
          | nil => exact le_refl x
          | cons y rest =>
              rw [List.getD_cons_zero, listMaxD_cons x (y :: rest) (by simp)]
              exact le_max_left _ _
      | succ j' =>
          have hj' : j' < xs.length := by
            simpa [Nat.succ_lt_succ_iff] using hj
          have hne : xs ≠ [] := by
            intro hx; rw [hx] at hj'; exact absurd hj' (Nat.not_lt_zero j')
          rw [List.getD_cons_succ, listMaxD_cons x xs hne]
          exact le_trans (ih j' hj') (le_max_right _ _)

theorem argmax_spec (l : List ℚ) (h : l ≠ []) :
    argmax l < l.length ∧ l.getD (argmax l) 0 = listMaxD l := by
  induction l with
  | nil => exact absurd rfl h
  | cons x xs ih =>
      cases xs with
      | nil => exact ⟨Nat.zero_lt_one, rfl⟩
      | cons y rest =>
          have hne : (y :: rest : List ℚ) ≠ [] := by simp
          obtain ⟨ihlt, ihval⟩ := ih hne
          by_cases hx : x < listMaxD (y :: rest)
          · have hstep : argmax (x :: y :: rest) = argmax (y :: rest) + 1 := by
              simp only [argmax, if_pos hx]
            constructor
            · rw [hstep]
              exact Nat.succ_lt_succ ihlt
            · rw [hstep, List.getD_cons_succ, ihval,
                listMaxD_cons x (y :: rest) hne, max_eq_right (le_of_lt hx)]
          · have hstep : argmax (x :: y :: rest) = 0 := by
              simp only [argmax, if_neg hx]
            constructor
            · rw [hstep]; exact Nat.succ_pos _
            · rw [hstep, List.getD_cons_zero,
                listMaxD_cons x (y :: rest) hne,
                max_eq_left (le_of_not_lt hx)]

theorem getD_le_argmax (l : List ℚ) (j : Nat) (hj : j < l.length) :
    l.getD j 0 ≤ l.getD (argmax l) 0 := by
  have hne : l ≠ [] := by
    intro hl; rw [hl] at hj; exact absurd hj (Nat.not_lt_zero j)
  rw [(argmax_spec l hne).2]
  exact getD_le_listMaxD l j hj

theorem cam_major_total :
    ∀ i : Nat, i < 12 → (CAM_MAJOR.lookup (NOTES.getD i "")).isSome = true := by
  decide

theorem cam_minor_total :
    ∀ i : Nat, i < 12 → (CAM_MINOR.lookup (NOTES.getD i "")).isSome = true := by
  decide

/-- C5: key detection is deterministic in the correlation values; the
`np.argmax` indices are the best major and best minor rotations (each
attains the maximum of its correlation list); the mode with the larger
candidate correlation wins with ties (decided by `>=`) resolving to
major; and the winning pitch class's entry in the fixed Camelot tables
is returned (and always exists). -/
theorem analyze_key_spec (mc nc : List ℚ)
    (hmc : mc.length = 12) (hnc : nc.length = 12) :
    analyze_key mc nc = analyze_key mc nc ∧
    (argmax mc < 12 ∧ ∀ j : Nat, j < 12 → mc.getD j 0 ≤ mc.getD (argmax mc) 0) ∧
    (argmax nc < 12 ∧ ∀ j : Nat, j < 12 → nc.getD j 0 ≤ nc.getD (argmax nc) 0) ∧
    (mc.getD (argmax mc) 0 ≥ nc.getD (argmax nc) 0 →
      analyze_key mc nc =
        ((NOTES.getD (argmax mc) "") ++ " major",
          CAM_MAJOR.lookup (NOTES.getD (argmax mc) ""))) ∧
    (¬ mc.getD (argmax mc) 0 ≥ nc.getD (argmax nc) 0 →
      analyze_key mc nc =
        ((NOTES.getD (argmax nc) "") ++ " minor",
          CAM_MINOR.lookup (NOTES.getD (argmax nc) ""))) ∧
    (analyze_key mc nc).2.isSome = true := by
  have hmne : mc ≠ [] := by intro h; rw [h] at hmc; exact absurd hmc (by decide)
  have hnne : nc ≠ [] := by intro h; rw [h] at hnc; exact absurd hnc (by decide)
  have hmlt : argmax mc < 12 := hmc ▸ (argmax_spec mc hmne).1
  have hnlt : argmax nc < 12 := hnc ▸ (argmax_spec nc hnne).1
  refine ⟨rfl, ⟨hmlt, fun j hj => getD_le_argmax mc j (by omega)⟩,
    ⟨hnlt, fun j hj => getD_le_argmax nc j (by omega)⟩, ?_, ?_, ?_⟩
  · intro hge
    simp only [analyze_key, if_pos hge]
  · intro hlt
    simp only [analyze_key, if_neg hlt]
  · by_cases hge : mc.getD (argmax mc) 0 ≥ nc.getD (argmax nc) 0
    · simp only [analyze_key, if_pos hge]
      exact cam_major_total (argmax mc) hmlt
    · simp only [analyze_key, if_neg hge]
      exact cam_minor_total (argmax nc) hnlt

/-! ## Theorems for the training-set builder claim -/

theorem choice_mem (l : List String) (k : Nat) (x : String)
    (h : choice l k = some x) : x ∈ l :=
  List.get?_mem h

theorem neg_candidates_mem (tracks : List String) (fromId toId x : String)
    (h : x ∈ neg_candidates tracks fromId toId) :
    x ∈ tracks ∧ x ≠ fromId ∧ x ≠ toId := by
  have h' := List.mem_filter.mp h
  refine ⟨h'.1, ?_, ?_⟩
  · have := h'.2
    simp only [Bool.and_eq_true, bne_iff_ne] at this
    exact this.1
  · have := h'.2
    simp only [Bool.and_eq_true, bne_iff_ne] at this
    exact this.2

theorem neg_examples_spec (tracks : List String) (fromId toId : String)
    (pick : Nat → Nat) :
    ∀ (n base : Nat) (negs : List ((String × String) × Nat)),
      neg_examples tracks fromId toId pick n base = some negs →
      negs.length = n ∧
        ∀ e ∈ negs, e.2 = 0 ∧ e.1.1 = fromId ∧
          (e.1.2 ∈ tracks ∧ e.1.2 ≠ fromId ∧ e.1.2 ≠ toId) := by
  intro n
  induction n with
  | zero =>
      intro base negs h
      have hn : negs = [] := (Option.some_inj.mp h).symm
      subst hn
      exact ⟨rfl, fun e he => absurd he (List.not_mem_nil e)⟩
  | succ n ih =>
      intro base negs h
      simp only [neg_examples] at h
      cases hch : choice (neg_candidates tracks fromId toId) (pick base) with
      | none => rw [hch] at h; exact Option.noConfusion h
      | some neg =>
          rw [hch] at h
          cases hrec : neg_examples tracks fromId toId pick n (base + 1) with
          | none => rw [hrec] at h; exact Option.noConfusion h
          | some rest =>
              rw [hrec] at h
              have hn : ((fromId, neg), 0) :: rest = negs := Option.some_inj.mp h
              obtain ⟨hlen, hmem⟩ := ih (base + 1) rest hrec
              subst hn
              constructor
              · simp [hlen]
              · intro e he
                rcases List.mem_cons.mp he with he1 | he2
                · subst he1
                  exact ⟨rfl, rfl,
                    neg_candidates_mem tracks fromId toId neg
                      (choice_mem _ _ _ hch)⟩
                · exact hmem e he2

theorem build_training_set_aux_spec (tracks : List String)
    (negPerPos : Nat) (pick : Nat → Nat) :
    ∀ (ts : List (String × String × Nat)) (base : Nat)
      (l : List ((String × String) × Nat)),
      build_training_set_aux tracks negPerPos pick ts base = some l →
      ((l.filter (fun e => e.2 == 1)).length =
        ((ts.filter (valid_transition tracks)).map
          (fun r => min r.2.2 MAX_FREQUENCY_WEIGHT)).sum) ∧
      ((l.filter (fun e => e.2 == 0)).length =
        negPerPos * (ts.filter (valid_transition tracks)).length) ∧
      (∀ a b : String, ((a, b), 1) ∈ l →
        ∃ fr, (a, b, fr) ∈ ts ∧ a ∈ tracks ∧ b ∈ tracks) ∧
      (∀ a ng : String, ((a, ng), 0) ∈ l →
        ∃ t fr, (a, t, fr) ∈ ts ∧ a ∈ tracks ∧ t ∈ tracks ∧
          ng ∈ tracks ∧ ng ≠ a ∧ ng ≠ t) := by
  intro ts
  induction ts with
  | nil =>
      intro base l h
      have hl : l = [] := (Option.some_inj.mp h).symm
      subst hl
      exact ⟨rfl, by simp, fun a b hab => absurd hab (List.not_mem_nil _),
        fun a ng hab => absurd hab (List.not_mem_nil _)⟩
  | cons r rest ih =>
      obtain ⟨f, t, freq⟩ := r
      intro base l h
      by_cases hv : f ∈ tracks ∧ t ∈ tracks
      · rw [build_training_set_aux, if_pos hv] at h
        cases hne : neg_examples tracks f t pick negPerPos base with
        | none => rw [hne] at h; exact Option.noConfusion h
        | some negs =>
            rw [hne] at h
            cases hrest : build_training_set_aux tracks negPerPos pick rest
                (base + negPerPos) with
            | none => rw [hrest] at h; exact Option.noConfusion h
            | some restEx =>
                rw [hrest] at h
                have hl : ((List.range (min freq MAX_FREQUENCY_WEIGHT)).map
                    (fun _ => ((f, t), 1))) ++ negs ++ restEx = l :=
                  Option.some_inj.mp h
                obtain ⟨hnlen, hnmem⟩ :=
                  neg_examples_spec tracks f t pick negPerPos base negs hne
                obtain ⟨ih1, ih2, ih3, ih4⟩ :=
                  ih (base + negPerPos) restEx hrest
                have hvalid : valid_transition tracks (f, t, freq) = true := by
                  simp [valid_transition, hv.1, hv.2]
                have hfilter :
                    ((f, t, freq) :: rest).filter (valid_transition tracks) =
                      (f, t, freq) :: rest.filter (valid_transition tracks) := by
                  simp [List.filter_cons, hvalid]
                -- positives keep label 1, negatives label 0
                have hpos1 : (((List.range (min freq MAX_FREQUENCY_WEIGHT)).map
                    (fun _ => ((f, t), 1))).filter
                      (fun e => e.2 == 1)).length =
                    min freq MAX_FREQUENCY_WEIGHT := by
                  rw [List.filter_eq_self.mpr]
                  · simp
                  · intro e he
                    obtain ⟨_, _, hee⟩ := List.mem_map.mp he
                    rw [← hee]
                    rfl
                have hpos0 : ((List.range (min freq MAX_FREQUENCY_WEIGHT)).map
                    (fun _ => ((f, t), 1))).filter (fun e => e.2 == 0) = [] := by
                  rw [List.filter_eq_nil_iff]
                  intro e he
                  obtain ⟨_, _, hee⟩ := List.mem_map.mp he
                  rw [← hee]
                  simp
                have hneg1 : negs.filter (fun e => e.2 == 1) = [] := by
                  rw [List.filter_eq_nil_iff]
                  intro e he
                  have h0 := (hnmem e he).1
                  simp [h0]
                have hneg0 : (negs.filter (fun e => e.2 == 0)).length =
                    negPerPos := by
                  rw [List.filter_eq_self.mpr, hnlen]
                  intro e he
                  have h0 := (hnmem e he).1
                  simp [h0]
                subst hl
                refine ⟨?_, ?_, ?_, ?_⟩
                · simp only [List.filter_append, List.length_append,
                    hpos1, hneg1, ih1, hfilter, List.map_cons, List.sum_cons,
                    List.length_nil]
                  omega
                · simp only [List.filter_append, List.length_append,
                    hpos0, hneg0, ih2, hfilter, List.length_cons,
                    List.length_nil]
                  ring
                · intro a b hab
                  rcases List.mem_append.mp hab with hab' | habr
                  · rcases List.mem_append.mp hab' with habp | habn
                    · obtain ⟨_, _, hee⟩ := List.mem_map.mp habp
                      have hfa : f = a := congrArg (fun e => e.1.1) hee
                      have htb : t = b := congrArg (fun e => e.1.2) hee
                      subst hfa; subst htb
                      exact ⟨freq, List.mem_cons_self _ _, hv.1, hv.2⟩
                    · have h0 : (1 : Nat) = 0 := (hnmem _ habn).1
                      exact absurd h0 one_ne_zero
                  · obtain ⟨fr, hmem, ha, hb⟩ := ih3 a b habr
                    exact ⟨fr, List.mem_cons_of_mem _ hmem, ha, hb⟩
                · intro a ng hab
                  rcases List.mem_append.mp hab with hab' | habr
                  · rcases List.mem_append.mp hab' with habp | habn
                    · obtain ⟨_, _, hee⟩ := List.mem_map.mp habp
                      have h1 : (1 : Nat) = 0 := congrArg (fun e => e.2) hee
                      exact absurd h1 one_ne_zero
                    · obtain ⟨_, hfa, hng, hngf, hngt⟩ := hnmem _ habn
                      have hfa' : a = f := hfa
                      subst hfa'
                      exact ⟨t, freq, List.mem_cons_self _ _, hv.1, hv.2,
                        hng, hngf, hngt⟩
                  · obtain ⟨t', fr, hmem, ha, ht', hng, hnga, hngt⟩ :=
                      ih4 a ng habr
                    exact ⟨t', fr, List.mem_cons_of_mem _ hmem, ha, ht',
                      hng, hnga, hngt⟩
      · rw [build_training_set_aux, if_neg hv] at h
        obtain ⟨ih1, ih2, ih3, ih4⟩ := ih base l h
        have hvalid : valid_transition tracks (f, t, freq) = false := by
          simp only [valid_transition, Bool.and_eq_false_iff,
            decide_eq_false_iff_not]
          by_cases hf : f ∈ tracks
          · exact Or.inr (fun ht => hv ⟨hf, ht⟩)
          · exact Or.inl hf
        have hfilter :
            ((f, t, freq) :: rest).filter (valid_transition tracks) =
              rest.filter (valid_transition tracks) := by
          simp [List.filter_cons, hvalid]
        refine ⟨by rw [hfilter]; exact ih1, by rw [hfilter]; exact ih2,
          ?_, ?_⟩
        · intro a b hab
          obtain ⟨fr, hmem, ha, hb⟩ := ih3 a b hab
          exact ⟨fr, List.mem_cons_of_mem _ hmem, ha, hb⟩
        · intro a ng hab
          obtain ⟨t', fr, hmem, ha, ht', hng, hnga, hngt⟩ := ih4 a ng hab
          exact ⟨t', fr, List.mem_cons_of_mem _ hmem, ha, ht', hng, hnga,
            hngt⟩

/-- C7: when the builder runs to completion, it emits exactly
`min(frequency, 3)` positive examples per transition record whose two
ids both exist in the tracks table and `negPerPos` negative examples per
such record; every positive example is the record's own pair, every
negative example pairs the record's source track with another track that
is neither the source nor the real destination, and records with a
missing id contribute nothing (they are skipped by the filter and do not
appear in the counts). -/
theorem build_training_set_spec (tracks : List String)
    (transitions : List (String × String × Nat)) (negPerPos : Nat)
    (pick : Nat → Nat) (l : List ((String × String) × Nat))
    (h : build_training_set tracks transitions negPerPos pick = some l) :
    ((l.filter (fun e => e.2 == 1)).length =
      ((transitions.filter (valid_transition tracks)).map
        (fun r => min r.2.2 MAX_FREQUENCY_WEIGHT)).sum) ∧
    ((l.filter (fun e => e.2 == 0)).length =
      negPerPos * (transitions.filter (valid_transition tracks)).length) ∧
    (∀ a b : String, ((a, b), 1) ∈ l →
      ∃ fr, (a, b, fr) ∈ transitions ∧ a ∈ tracks ∧ b ∈ tracks) ∧
    (∀ a ng : String, ((a, ng), 0) ∈ l →
      ∃ t fr, (a, t, fr) ∈ transitions ∧ a ∈ tracks ∧ t ∈ tracks ∧
        ng ∈ tracks ∧ ng ≠ a ∧ ng ≠ t) :=
  build_training_set_aux_spec tracks negPerPos pick transitions 0 l h

/-- Witness for `build_training_set_spec`: tracks `a, b, c`, one
transition `(a, b)` with frequency 5 and 3 negatives per positive yield
three positive copies of `(a, b)` and three negatives pairing `a` with
`c`. -/
theorem build_training_set_spec_witness :
    build_training_set ["a", "b", "c"] [("a", "b", 5)] 3 pick0 =
      some bts_example ∧
    (bts_example.filter (fun e => e.2 == 1)).length = 3 ∧
    (bts_example.filter (fun e => e.2 == 0)).length = 3 := by
  have heq : build_training_set ["a", "b", "c"] [("a", "b", 5)] 3 pick0 =
      some bts_example := by decide
  have h := build_training_set_spec ["a", "b", "c"] [("a", "b", 5)] 3 pick0
    bts_example heq
  refine ⟨heq, ?_, ?_⟩
  · rw [h.1]; decide
  · rw [h.2.1]; decide

/-! ## Theorems for the transition exporter claim -/

theorem count_of_bump (counts : List ((String × String) × Nat))
    (k k' : String × String) :
    count_of (bump counts k) k' =
      count_of counts k' + (if k = k' then 1 else 0) := by
  induction counts with
  | nil =>
      by_cases h : k = k'
      · subst h
        simp [bump, count_of, List.lookup]
      · have hb : (k' == k) = false := beq_eq_false_iff_ne.mpr (Ne.symm h)

        simp [bump, count_of, List.lookup, hb, h]
  | cons e rest ih =>
      obtain ⟨p, c⟩ := e
      by_cases hpk : p = k
      · subst hpk
        by_cases hk'p : k' = p
        · subst hk'p
          simp [bump, count_of, List.lookup]
        · have hb : (k' == p) = false := beq_eq_false_iff_ne.mpr hk'p
          have hne : ¬ p = k' := fun hh => hk'p hh.symm
          simp [bump, count_of, List.lookup, hb, hne]
      · by_cases hk'p : k' = p
        · subst hk'p
          have hkk' : ¬ k = k' := fun hh => hpk hh.symm
          simp [bump, count_of, List.lookup, hpk, hkk']
        · have hb : (k' == p) = false := beq_eq_false_iff_ne.mpr hk'p
          simp only [bump, if_neg hpk, count_of, List.lookup, hb]
          exact ih

theorem count_of_record_pair (counts : List ((String × String) × Nat))
    (p : Option String × Option String) (a b : String) :
    count_of (record_pair counts p) (a, b) =
      count_of counts (a, b) +
        (if p = (some a, some b) then 1 else 0) := by
  match p with
  | (some x, some y) =>
      show count_of (bump counts (x, y)) (a, b) = _
      rw [count_of_bump]
      congr 1
      by_cases h : (x, y) = (a, b)
      · have hx : x = a := congrArg Prod.fst h
        have hy : y = b := congrArg Prod.snd h
        subst hx; subst hy
        simp
      · rw [if_neg h, if_neg]
        intro hc
        apply h
        have hx : some x = some a := congrArg Prod.fst hc
        have hy : some y = some b := congrArg Prod.snd hc
        rw [Option.some_inj.mp hx, Option.some_inj.mp hy]
  | (none, q) =>
      show count_of counts (a, b) = _
      rw [if_neg, Nat.add_zero]
      intro hc
      exact Option.noConfusion (congrArg Prod.fst hc)
  | (some x, none) =>
      show count_of counts (a, b) = _
      rw [if_neg, Nat.add_zero]
      intro hc
      exact Option.noConfusion (congrArg Prod.snd hc)

theorem count_of_foldl_pairs (a b : String) :
    ∀ (ps : List (Option String × Option String))
      (counts : List ((String × String) × Nat)),
      count_of (ps.foldl record_pair counts) (a, b) =
        count_of counts (a, b) +
          ps.countP (fun p => decide (p = (some a, some b))) := by
  intro ps
  induction ps with
  | nil => intro counts; simp
  | cons p ps ih =>
      intro counts
      simp only [List.foldl_cons, List.countP_cons]
      rw [ih, count_of_record_pair]
      by_cases h : p = (some a, some b)
      · simp [h]
        omega
      · simp [h]

theorem count_of_extract (d : List Tracklist) (a b : String) :
    count_of (extract_transitions d) (a, b) = spec_pair_count d a b := by
  have key : ∀ (dl : List Tracklist) (counts : List ((String × String) × Nat)),
      count_of (dl.foldl
        (fun cs mix => (consecutive_pairs mix).foldl record_pair cs) counts)
        (a, b) = count_of counts (a, b) + spec_pair_count dl a b := by
    intro dl
    induction dl with
    | nil => intro counts; simp [spec_pair_count]
    | cons mix dl ih =>
        intro counts
        simp only [List.foldl_cons]
        rw [ih, count_of_foldl_pairs]
        simp [spec_pair_count]
        omega
  have h := key d []
  simpa [extract_transitions, count_of, List.lookup] using h

theorem sorted_transitions_sorted (counts : List ((String × String) × Nat)) :
    (sorted_transitions counts).Pairwise (fun a b => b.2 ≤ a.2) := by
  have htrans : ∀ a b c : (String × String) × Nat,
      (fun x y : (String × String) × Nat => decide (y.2 ≤ x.2)) a b = true →
      (fun x y : (String × String) × Nat => decide (y.2 ≤ x.2)) b c = true →
      (fun x y : (String × String) × Nat => decide (y.2 ≤ x.2)) a c = true := by
    intro a b c hab hbc
    simp only [decide_eq_true_eq] at hab hbc ⊢
    omega
  have htotal : ∀ a b : (String × String) × Nat,
      ((fun x y : (String × String) × Nat => decide (y.2 ≤ x.2)) a b ||
       (fun x y : (String × String) × Nat => decide (y.2 ≤ x.2)) b a) = true := by
    intro a b
    simp only [Bool.or_eq_true, decide_eq_true_eq]
    omega
  have h := List.sorted_mergeSort htrans htotal counts
  exact h.imp (fun hab => by simpa using hab)

/-- C8: the transition exporter is deterministic and idempotent (its
output rows are a function of the mix dataset alone), writes the header
`from_track_id, to_track_id, frequency`, sorts the body by descending
frequency, and the recorded frequency of every ordered pair equals the
number of consecutive occurrences of that pair with both ids non-null
across all mixes. -/
theorem export_transitions_spec (d : List Tracklist) :
    export_to_csv (extract_transitions d) =
      export_to_csv (extract_transitions d) ∧
    (export_to_csv (extract_transitions d)).head? =
      some ["from_track_id", "to_track_id", "frequency"] ∧
    (sorted_transitions (extract_transitions d)).Pairwise
      (fun a b => b.2 ≤ a.2) ∧
    (∀ e : (String × String) × Nat,
      e ∈ sorted_transitions (extract_transitions d) ↔
        e ∈ extract_transitions d) ∧
    ∀ a b : String,
      count_of (extract_transitions d) (a, b) = spec_pair_count d a b := by
  refine ⟨rfl, rfl, sorted_transitions_sorted _, fun e => ?_,
    fun a b => count_of_extract d a b⟩
  exact (List.mergeSort_perm (extract_transitions d) _).mem_iff

set_option maxRecDepth 4000 in
/-- Witness for `analyze_key_spec`: two concrete correlation lists whose
best major and best minor correlations are tied; the tie resolves to
major, giving C major with Camelot code 8B. -/
theorem analyze_key_spec_witness :
    analyze_key [5, 1, 1, 1, 1, 1, 1, 1, 1, 1, 1, 1]
        [5, 2, 1, 1, 1, 1, 1, 1, 1, 1, 1, 1] = ("C major", some "8B") := by
  have h := analyze_key_spec [5, 1, 1, 1, 1, 1, 1, 1, 1, 1, 1, 1]
    [5, 2, 1, 1, 1, 1, 1, 1, 1, 1, 1, 1] (by decide) (by decide)
  have hmaj := h.2.2.2.1 (by decide)
  rw [hmaj]
  decide

end DJAI
